import Mathlib

/-!
Verification of the tool-invocation pipeline, schema translation layer,
tool registry, rate limiter and authentication middleware of the
mcp-sdk-ts repository (src/core/server.ts, src/core/tool.ts,
src/core/middleware.ts), shallowly embedded in Lean.

JavaScript runtime values are modelled by the inductive `JValue`;
promises are elided (every handler and hook is modelled by the pure
function it computes, with a thrown exception modelled by the error
side of `Except`); the `JSON.stringify` step that serialises a response
payload into the text body of a protocol message is elided, so a
response carries the payload value itself.
-/

/-- Model of a JavaScript runtime value as far as the pipeline inspects
one: `undefined`, `null`, booleans, numbers (modelled as integers;
no pipeline code path depends on non-integral numbers), strings,
arrays, and plain objects as ordered field lists. -/
inductive JValue where
  | undef
  | null
  | vBool (b : Bool)
  | vNum (n : Int)
  | vStr (s : String)
  | vArr (elems : List JValue)
  | vObj (fields : List (String × JValue))

/-- JavaScript truthiness of a value: `undefined`, `null`, `false`,
`0` and the empty string are falsy; every other value, in particular
every object and array, is truthy. -/
def truthy : JValue → Bool
  | .undef => false
  | .null => false
  | .vBool b => b
  | .vNum n => n != 0
  | .vStr s => s ≠ ""
  | .vArr _ => true
  | .vObj _ => true

/-- JavaScript property access `obj[k]` on a plain object: the value of
the field named `k`, or `undefined` when there is none. -/
def fieldLookup (k : String) : List (String × JValue) → JValue
  | [] => .undef
  | (k2, v) :: rest => if k2 = k then v else fieldLookup k rest

/-- JavaScript property assignment `obj[k] = v` (equally, the effect of
a later entry for `k` in an object literal with spread): the first
existing field named `k` is overwritten in place, preserving key order;
a fresh key is appended at the end. -/
def objSet (fields : List (String × JValue)) (k : String) (v : JValue) :
    List (String × JValue) :=
  match fields with
  | [] => [(k, v)]
  | (k2, w) :: rest =>
    if k2 = k then (k2, v) :: rest else (k2, w) :: objSet rest k v

/-- One structured validation issue of the zod library: the path of
keys / stringified indices from the root to the offending value, and a
message. -/
structure ZodIssue where
  path : List String
  message : String
deriving DecidableEq

/-- Model of a JavaScript exception as the pipeline distinguishes them:
an ordinary `Error` carrying a message, a `ZodError` carrying its issue
list, or a thrown non-`Error` value. -/
inductive JSException where
  | jsError (message : String)
  | zodError (issues : List ZodIssue)
  | thrownValue (value : JValue)

/-- Coarse model of JavaScript `String(x)` conversion, used only when a
thrown non-`Error` value is rendered into an error envelope. -/
def jsStringOf : JValue → String
  | .undef => "undefined"
  | .null => "null"
  | .vBool b => if b then "true" else "false"
  | .vNum n => toString n
  | .vStr s => s
  | .vArr _ => ""
  | .vObj _ => "[object Object]"

/-- Model of the `message` property of a `ZodError` (the external zod
library serialises its issue list into the message). -/
def zodErrorMessage (issues : List ZodIssue) : String :=
  String.intercalate "; " (issues.map (fun i => i.message))

/-- The `message` rendered for a caught exception by the call-tool
handler: `error instanceof Error ? error.message : String(error)`
(src/core/server.ts line 258). -/
def excMessage : JSException → String
  | .jsError m => m
  | .zodError issues => zodErrorMessage issues
  | .thrownValue v => jsStringOf v

/-- The name of the JavaScript type of a value, as the zod library
reports it in an invalid-type issue. -/
def typeNameOf : JValue → String
  | .undef => "undefined"
  | .null => "null"
  | .vBool _ => "boolean"
  | .vNum _ => "number"
  | .vStr _ => "string"
  | .vArr _ => "array"
  | .vObj _ => "object"

/-- String constraints of a schema node, mirroring the check kinds the
translator in src/core/tool.ts inspects (`email`, `url`, `uuid`,
`min`, `max`). -/
inductive StringCheck where
  | email
  | url
  | uuid
  | minLen (n : Nat)
  | maxLen (n : Nat)

/-- Number constraints of a schema node, mirroring the check kinds the
translator inspects (`int`, `min`, `max`). -/
inductive NumCheck where
  | intCheck
  | minVal (m : Int)
  | maxVal (m : Int)

/-- A literal schema value. The zod literal comparison is JavaScript
strict equality, which on non-primitives is reference identity, so only
primitive literals are representable. -/
inductive LitValue where
  | lStr (s : String)
  | lNum (n : Int)
  | lBool (b : Bool)

/-- Schema node: the declarative description of a value shape, with
exactly the variants the translator and validator of src/core/tool.ts
dispatch on (object, string, number, boolean, array, optional,
nullable, enum, literal). Object properties are an ordered list. -/
inductive SchemaNode where
  | obj (props : List (String × SchemaNode))
  | str (checks : List StringCheck)
  | num (checks : List NumCheck)
  | boolean
  | arr (elem : SchemaNode)
  | opt (inner : SchemaNode)
  | nullable (inner : SchemaNode)
  | enum (values : List String)
  | lit (value : LitValue)

/-- Modelled from the spec: acceptance of one string constraint by the
external zod library (the exact format regexes of zod are not part of
this repository; only which constraint kinds exist matters to the
claims). Returns the issue produced when the constraint is violated. -/
def stringCheckIssue (s : String) : StringCheck → Option ZodIssue
  | .email => if s.contains '@' then none else some ⟨[], "Invalid email"⟩
  | .url => if s.startsWith "http" then none else some ⟨[], "Invalid url"⟩
  | .uuid => if s.length = 36 then none else some ⟨[], "Invalid uuid"⟩
  | .minLen n =>
    if n ≤ s.length then none
    else some ⟨[], "String must contain at least " ++ toString n ++ " character(s)"⟩
  | .maxLen n =>
    if s.length ≤ n then none
    else some ⟨[], "String must contain at most " ++ toString n ++ " character(s)"⟩

/-- Acceptance of one number constraint by the zod library. In the
integer model of JavaScript numbers the `int` check always passes. -/
def numCheckIssue (n : Int) : NumCheck → Option ZodIssue
  | .intCheck => none
  | .minVal m =>
    if m ≤ n then none
    else some ⟨[], "Number must be greater than or equal to " ++ toString m⟩
  | .maxVal m =>
    if n ≤ m then none
    else some ⟨[], "Number must be less than or equal to " ++ toString m⟩

/-- Comparison of a literal schema value with an input value
(JavaScript strict equality on primitives). -/
def litMatches : LitValue → JValue → Bool
  | .lStr s, .vStr s2 => s = s2
  | .lNum n, .vNum n2 => n = n2
  | .lBool b, .vBool b2 => b = b2
  | _, _ => false

/-- Outcome of the internal (non-throwing) parse routine of the zod
library: a validated value, or the accumulated issue list. -/
inductive ParseResult where
  | ok (value : JValue)
  | invalid (issues : List ZodIssue)

/-- Issues of the element results of an array parse, each tagged with
its stringified index, in element order. -/
def arrIssues : Nat → List ParseResult → List ZodIssue
  | _, [] => []
  | i, .ok _ :: rest => arrIssues (i + 1) rest
  | i, .invalid is :: rest =>
    is.map (fun iss => ⟨toString i :: iss.path, iss.message⟩) ++ arrIssues (i + 1) rest

/-- Element values of an array parse (only consulted when no element
produced an issue). -/
def arrValues : List ParseResult → List JValue
  | [] => []
  | .ok v :: rest => v :: arrValues rest
  | .invalid _ :: rest => .undef :: arrValues rest

/-- Combine the element results of an array parse: collect every issue
with its index on the path; succeed with the element values iff there
is none. -/
def combineArr (rs : List ParseResult) : ParseResult :=
  let issues := arrIssues 0 rs
  if issues.isEmpty then .ok (.vArr (arrValues rs)) else .invalid issues

/-- Issues of the per-property results of an object parse, each tagged
with its key, in property order. -/
def objIssues : List (String × ParseResult) → List ZodIssue
  | [] => []
  | (_, .ok _) :: rest => objIssues rest
  | (k, .invalid is) :: rest =>
    is.map (fun iss => ⟨k :: iss.path, iss.message⟩) ++ objIssues rest

/-- Parsed property values of an object parse; a property whose parsed
value is `undefined` (an absent optional) is not materialised. -/
def objValues : List (String × ParseResult) → List (String × JValue)
  | [] => []
  | (_, .ok .undef) :: rest => objValues rest
  | (k, .ok v) :: rest => (k, v) :: objValues rest
  | (_, .invalid _) :: rest => objValues rest

/-- Combine the per-property results of an object parse: collect every
issue of every property with the key on the path; succeed iff there is
none. -/
def combineObj (rs : List (String × ParseResult)) : ParseResult :=
  let issues := objIssues rs
  if issues.isEmpty then .ok (.vObj (objValues rs)) else .invalid issues

mutual
/-- Modelled from the spec: the internal parse routine of the external
zod library over the schema-node variants of section 3 of the spec.
Faithful to the zod architecture, it accumulates issues as a value and
never raises; all issues reachable are collected, each with its
materialised path. -/
def parseCore : SchemaNode → JValue → ParseResult
  | .obj props, v =>
    match v with
    | .vObj fields => combineObj (parseProps props fields)
    | _ => .invalid [⟨[], "Expected object, received " ++ typeNameOf v⟩]
  | .str checks, v =>
    match v with
    | .vStr s =>
      let issues := checks.filterMap (stringCheckIssue s)
      if issues.isEmpty then .ok (.vStr s) else .invalid issues
    | _ => .invalid [⟨[], "Expected string, received " ++ typeNameOf v⟩]
  | .num checks, v =>
    match v with
    | .vNum n =>
      let issues := checks.filterMap (numCheckIssue n)
      if issues.isEmpty then .ok (.vNum n) else .invalid issues
    | _ => .invalid [⟨[], "Expected number, received " ++ typeNameOf v⟩]
  | .boolean, v =>
    match v with
    | .vBool b => .ok (.vBool b)
    | _ => .invalid [⟨[], "Expected boolean, received " ++ typeNameOf v⟩]
  | .arr elem, v =>
    match v with
    | .vArr xs => combineArr (xs.map (fun x => parseCore elem x))
    | _ => .invalid [⟨[], "Expected array, received " ++ typeNameOf v⟩]
  | .opt inner, v =>
    match v with
    | .undef => .ok .undef
    | _ => parseCore inner v
  | .nullable inner, v =>
    match v with
    | .null => .ok .null
    | _ => parseCore inner v
  | .enum values, v =>
    match v with
    | .vStr s =>
      if values.contains s then .ok (.vStr s)
      else .invalid [⟨[], "Invalid enum value"⟩]
    | _ => .invalid [⟨[], "Expected string, received " ++ typeNameOf v⟩]
  | .lit l, v => if litMatches l v then .ok v else .invalid [⟨[], "Invalid literal value"⟩]

/-- Parse each declared property of an object schema, in declaration
order, against the corresponding field of the input object
(`undefined` when absent). -/
def parseProps : List (String × SchemaNode) → List (String × JValue) →
    List (String × ParseResult)
  | [], _ => []
  | (k, s) :: rest, fields =>
    (k, parseCore s (fieldLookup k fields)) :: parseProps rest fields
end

/-- The throwing entry point `schema.parse(data)` of the zod library:
returns the validated value, or throws a `ZodError` carrying the issue
list. -/
def zodParse (s : SchemaNode) (v : JValue) : Except JSException JValue :=
  match parseCore s v with
  | .ok w => .ok w
  | .invalid issues => .error (.zodError issues)

/-- Result shape of `validateWithSchema` in src/core/tool.ts:
`{success: true, data}` or `{success: false, errors}`. -/
inductive VResult where
  | success (data : JValue)
  | failure (errors : List ZodIssue)

/-- Embedding of `validateWithSchema` (src/core/tool.ts lines 150-163):
calls `schema.parse` in a try block; a caught `ZodError` becomes the
failure result; any other exception is rethrown (the outer `Except`
error side). -/
def validateWithSchema (s : SchemaNode) (v : JValue) : Except JSException VResult :=
  match zodParse s v with
  | .ok w => .ok (.success w)
  | .error e =>
    match e with
    | .zodError issues => .ok (.failure issues)
    | _ => .error e

/-- Embedding of `formatZodError` (src/core/tool.ts lines 168-175):
renders every issue as `path.join(.): message` and joins them with
a comma. -/
def formatZodError (issues : List ZodIssue) : String :=
  String.intercalate ", " (issues.map (fun issue =>
    String.intercalate "." issue.path ++ ": " ++ issue.message))

/-!
The invocation pipeline of the call-tool request handler
(src/core/server.ts lines 145-269). Hooks and handlers are modelled by
the pure functions they compute; a hook or handler that throws is
modelled by returning the error side of `Except`. The per-call context
(http client, logger, environment) is an opaque capability bag the
pipeline forwards without inspecting, so it is elided: quantifying over
arbitrary hook functions subsumes every possible context.
-/

/-- Effect of one pre-handler hook result on the current input
(src/core/server.ts lines 194-197): the declared result type is
`void | (an object with an input field)`; the replacement is adopted
only when `result && result.input` is truthy. -/
def applyPre (input : JValue) : Option JValue → JValue
  | some v => if truthy v then v else input
  | none => input

/-- Effect of one post-handler hook result on the current output
(src/core/server.ts lines 231-235), by the same truthiness rule. -/
def applyPost (output : JValue) : Option JValue → JValue
  | some v => if truthy v then v else output
  | none => output

/-- A registered tool descriptor as the pipeline consumes it
(`MCPToolDefinition`): name, optional description, input and output
schema nodes, handler, and the ordered pre/post hook lists. -/
structure ToolDef where
  name : String
  description : Option String
  inputSchema : SchemaNode
  outputSchema : SchemaNode
  handler : JValue → Except JSException JValue
  preHandler : List (JValue → Except JSException (Option JValue))
  postHandler : List (JValue → JValue → Except JSException (Option JValue))

/-- The pre-handler loop (src/core/server.ts lines 192-199): hooks run
strictly in list order, each over the current input; a thrown hook
exception aborts the loop. -/
def runPre : List (JValue → Except JSException (Option JValue)) → JValue →
    Except JSException JValue
  | [], input => .ok input
  | hook :: rest, input => do
    let r ← hook input
    runPre rest (applyPre input r)

/-- The post-handler loop (src/core/server.ts lines 230-237): hooks run
strictly in list order over the final input and the current output. -/
def runPost : List (JValue → JValue → Except JSException (Option JValue)) →
    JValue → JValue → Except JSException JValue
  | [], _, output => .ok output
  | hook :: rest, input, output => do
    let r ← hook input output
    runPost rest input (applyPost output r)

/-- A call-tool response: the payload value that the handler serialises
into the single text content item, and the isError flag (absent on the
success path, modelled as false). -/
structure CallResponse where
  payload : JValue
  isError : Bool

/-- The tool-not-found error envelope (src/core/server.ts lines 151-161). -/
def toolNotFoundResponse (name : String) : CallResponse :=
  ⟨.vObj [("error", .vStr ("Tool \"" ++ name ++ "\" not found"))], true⟩

/-- The input-validation-failure error envelope (src/core/server.ts
lines 170-187). -/
def inputValidationFailedResponse (errors : List ZodIssue) : CallResponse :=
  ⟨.vObj [("error", .vStr "Input validation failed"),
          ("details", .vStr (formatZodError errors))], true⟩

/-- The output-validation-failure error envelope (src/core/server.ts
lines 207-225). -/
def outputValidationFailedResponse (errors : List ZodIssue) : CallResponse :=
  ⟨.vObj [("error", .vStr "Output validation failed"),
          ("details", .vStr (formatZodError errors))], true⟩

/-- The catch-all error envelope of the call-tool handler
(src/core/server.ts lines 249-267): a normal response with isError set
and the exception message in the body. -/
def executionFailedResponse (e : JSException) : CallResponse :=
  ⟨.vObj [("error", .vStr "Tool execution failed"),
          ("message", .vStr (excMessage e))], true⟩

/-- The success envelope (src/core/server.ts lines 241-248). -/
def successResponse (output : JValue) : CallResponse := ⟨output, false⟩

/-- Stages of the try block after the handler has produced its
candidate output (src/core/server.ts lines 205-248): validate the
output, run the post-hooks, build the success envelope. -/
def afterHandler (tool : ToolDef) (input output0 : JValue) :
    Except JSException CallResponse := do
  let ov ← validateWithSchema tool.outputSchema output0
  match ov with
  | .failure errors => pure (outputValidationFailedResponse errors)
  | .success output1 => do
    let output ← runPost tool.postHandler input output1
    pure (successResponse output)

/-- Body of the try block of the call-tool handler (src/core/server.ts
lines 163-248): validate input, run pre-hooks, run the handler once,
then the output stages; validation failures return error envelopes as
ordinary values, while a thrown exception surfaces on the error side to
be caught by the enclosing catch. -/
def tryBody (tool : ToolDef) (args : JValue) : Except JSException CallResponse := do
  let iv ← validateWithSchema tool.inputSchema args
  match iv with
  | .failure errors => pure (inputValidationFailedResponse errors)
  | .success input0 => do
    let input ← runPre tool.preHandler input0
    let output0 ← tool.handler input
    afterHandler tool input output0

/-- The complete call-tool request handler (src/core/server.ts lines
145-269): resolve the tool by name, then run the try block, converting
any exception it surfaces into the catch-all error envelope. The return
type being a plain `CallResponse` embeds that no exception crosses the
protocol boundary. -/
def callTool (tools : List ToolDef) (name : String) (args : JValue) : CallResponse :=
  match tools.find? (fun t => t.name == name) with
  | none => toolNotFoundResponse name
  | some tool =>
    match tryBody tool args with
    | .ok resp => resp
    | .error e => executionFailedResponse e

/-- Embedding of `registerTool` (src/core/server.ts lines 83-93): throw
on a name already present (the throw precedes the push, so the registry
array is left unchanged), else append at the end. The first component
is the call outcome (the error string being the message of the `Error`
the source constructs), the second the registry afterwards. -/
def registerTool (tools : List ToolDef) (tool : ToolDef) :
    Except String Unit × List ToolDef :=
  if (tools.find? (fun t => t.name == tool.name)).isSome then
    (.error ("Tool with name \"" ++ tool.name ++ "\" already registered"), tools)
  else (.ok (), tools ++ [tool])

/-- Whether a schema node is the Optional wrapper (the
`value instanceof z.ZodOptional` test of src/core/tool.ts line 48). -/
def isOptionalNode : SchemaNode → Bool
  | .opt _ => true
  | _ => false

/-- The required-name accumulation of the object translation loop
(src/core/tool.ts lines 46-51): property names not wrapped in Optional,
in property order. -/
def requiredNames : List (String × SchemaNode) → List String
  | [] => []
  | (k, s) :: rest =>
    if isOptionalNode s then requiredNames rest else k :: requiredNames rest

/-- Effect of one string check on the interchange document under
construction (src/core/tool.ts lines 65-78). -/
def applyStringCheckDoc (acc : List (String × JValue)) :
    StringCheck → List (String × JValue)
  | .email => objSet acc "format" (.vStr "email")
  | .url => objSet acc "format" (.vStr "uri")
  | .uuid => objSet acc "format" (.vStr "uuid")
  | .minLen n => objSet acc "minLength" (.vNum (Int.ofNat n))
  | .maxLen n => objSet acc "maxLength" (.vNum (Int.ofNat n))

/-- Effect of one number check on the interchange document under
construction (src/core/tool.ts lines 88-97). -/
def applyNumCheckDoc (acc : List (String × JValue)) :
    NumCheck → List (String × JValue)
  | .intCheck => objSet acc "type" (.vStr "integer")
  | .minVal m => objSet acc "minimum" (.vNum m)
  | .maxVal m => objSet acc "maximum" (.vNum m)

/-- JavaScript `typeof` of a literal schema value (src/core/tool.ts
lines 133-140). -/
def litTypeName : LitValue → String
  | .lStr _ => "string"
  | .lNum _ => "number"
  | .lBool _ => "boolean"

/-- A literal schema value as a runtime value. -/
def litToJValue : LitValue → JValue
  | .lStr s => .vStr s
  | .lNum n => .vNum n
  | .lBool b => .vBool b

mutual
/-- Embedding of `zodToJsonSchema` (src/core/tool.ts lines 36-145): the
structural translation of a schema node into the interchange schema
document, represented at the JSON level (a field the source sets to
`undefined`, such as an empty required list, is omitted, exactly as it
is absent from the serialised catalog). -/
def zodToJsonSchema : SchemaNode → JValue
  | .obj props =>
    .vObj ([("type", .vStr "object"), ("properties", .vObj (translateProps props))] ++
      (if (requiredNames props).length > 0 then
        [("required", .vArr ((requiredNames props).map .vStr))]
      else []))
  | .str checks => .vObj (checks.foldl applyStringCheckDoc [("type", .vStr "string")])
  | .num checks => .vObj (checks.foldl applyNumCheckDoc [("type", .vStr "number")])
  | .boolean => .vObj [("type", .vStr "boolean")]
  | .arr elem => .vObj [("type", .vStr "array"), ("items", zodToJsonSchema elem)]
  | .opt inner => zodToJsonSchema inner
  | .nullable inner =>
    match zodToJsonSchema inner with
    | .vObj fs => .vObj (objSet fs "nullable" (.vBool true))
    | _ => .vObj [("nullable", .vBool true)]
  | .enum values => .vObj [("type", .vStr "string"), ("enum", .vArr (values.map .vStr))]
  | .lit l => .vObj [("type", .vStr (litTypeName l)), ("const", litToJValue l)]

/-- The property-translation loop of the object branch (src/core/tool.ts
lines 46-48): each property translated recursively, in property order. -/
def translateProps : List (String × SchemaNode) → List (String × JValue)
  | [] => []
  | (k, s) :: rest => (k, zodToJsonSchema s) :: translateProps rest
end

/-- One listed catalog entry produced by the list-tools request handler. -/
structure ListedTool where
  name : String
  description : String
  inputSchema : JValue

/-- The listed description of a tool (src/core/server.ts line 130):
the declared description when truthy, else the fallback text. -/
def listedDescription (tool : ToolDef) : String :=
  match tool.description with
  | some d => if d = "" then "Execute " ++ tool.name else d
  | none => "Execute " ++ tool.name

/-- Fields of a translated schema document (always an object in this
model). -/
def schemaFields : JValue → List (String × JValue)
  | .vObj fs => fs
  | _ => []

/-- The inputSchema massaging of the list-tools handler
(src/core/server.ts lines 131-135): spread the translated document,
then force the type field to object and default the properties field
to an empty object when falsy. -/
def forceObjectType (schema : JValue) : JValue :=
  let fs := schemaFields schema
  let props :=
    if truthy (fieldLookup "properties" fs) then fieldLookup "properties" fs
    else .vObj []
  .vObj (objSet (objSet fs "type" (.vStr "object")) "properties" props)

/-- Embedding of the list-tools request handler (src/core/server.ts
lines 125-140): one entry per registered tool, in registry order. -/
def listTools (tools : List ToolDef) : List ListedTool :=
  tools.map (fun tool =>
    { name := tool.name
      description := listedDescription tool
      inputSchema := forceObjectType (zodToJsonSchema tool.inputSchema) })

/-!
The in-memory rate limiter of src/core/middleware.ts (lines 359-384).
The `Map<string, number[]>` is modelled as an ordered association list
with unique keys; `Date.now()` values are integers supplied explicitly.
-/

/-- Lookup in the model of `Map.get`. -/
def mapGet : List (String × List Int) → String → Option (List Int)
  | [], _ => none
  | (k2, v) :: rest, k => if k2 = k then some v else mapGet rest k

/-- Update in the model of `Map.set`: overwrite the entry of an
existing key in place, else append. -/
def mapSet : List (String × List Int) → String → List Int →
    List (String × List Int)
  | [], k, v => [(k, v)]
  | (k2, w) :: rest, k, v =>
    if k2 = k then (k2, v) :: rest else (k2, w) :: mapSet rest k v

/-- Deletion in the model of `Map.delete`. -/
def mapDelete : List (String × List Int) → String → List (String × List Int)
  | [], _ => []
  | (k2, w) :: rest, k => if k2 = k then rest else (k2, w) :: mapDelete rest k

/-- State of the in-memory rate limiter: the configured maximum and
window length, and the per-key recorded timestamps. -/
structure RateLimiter where
  max : Nat
  windowMs : Int
  requests : List (String × List Int)

/-- Embedding of `RateLimiter.check` (src/core/middleware.ts lines
364-379): read the stored timestamps of the key, keep those with
`now - time < windowMs`, reject without storing when their count
reaches the maximum, else store the kept timestamps plus `now` and
accept. -/
def RateLimiter.check (rl : RateLimiter) (key : String) (now : Int) :
    Bool × RateLimiter :=
  let requests := (mapGet rl.requests key).getD []
  let validRequests := requests.filter (fun time => now - time < rl.windowMs)
  if rl.max ≤ validRequests.length then (false, rl)
  else (true, { rl with requests := mapSet rl.requests key (validRequests ++ [now]) })

/-- Embedding of `RateLimiter.reset` (src/core/middleware.ts lines
381-383). -/
def RateLimiter.reset (rl : RateLimiter) (key : String) : RateLimiter :=
  { rl with requests := mapDelete rl.requests key }

/-- A fresh rate limiter (constructor of the class: empty map). -/
def RateLimiter.init (maxReq : Nat) (windowMs : Int) : RateLimiter :=
  ⟨maxReq, windowMs, []⟩

/-- One administrative or checking operation on a rate limiter. -/
inductive RLOp where
  | doCheck (key : String) (now : Int)
  | doReset (key : String)

/-- The state reached by one operation. -/
def RateLimiter.applyOp (rl : RateLimiter) : RLOp → RateLimiter
  | .doCheck k n => (rl.check k n).2
  | .doReset k => rl.reset k

/-- The state reached by a sequence of operations, first to last. -/
def RateLimiter.runOps (rl : RateLimiter) (ops : List RLOp) : RateLimiter :=
  ops.foldl RateLimiter.applyOp rl

/-!
The authentication middleware of src/core/middleware.ts (lines
436-479). The async validate callback is modelled by the boolean
function it computes; calling the continuation is modelled by the
`proceed` outcome, a terminal rejection by `reject` with its status
code and body.
-/

/-- The configured authentication scheme. -/
inductive AuthType where
  | apiKey
  | bearer
  | custom

/-- The scheme as the string interpolated into the rejection message. -/
def AuthType.asString : AuthType → String
  | .apiKey => "apiKey"
  | .bearer => "bearer"
  | .custom => "custom"

/-- Authentication options (`AuthOptions`): scheme, optional header
name, optional validate callback. -/
structure AuthOptions where
  type : AuthType
  headerName : Option String
  validate : Option (String → Bool)

/-- A header value: a single string or an array of strings. -/
inductive HeaderValue where
  | single (s : String)
  | multi (xs : List String)

/-- An inbound request as the middleware inspects it: its headers. -/
structure GenericRequest where
  headers : List (String × HeaderValue)

/-- Header lookup by exact (lower-cased by the caller) name. -/
def getHeader (req : GenericRequest) (name : String) : Option HeaderValue :=
  (req.headers.find? (fun h => h.1 == name)).map (fun h => h.2)

/-- JavaScript `Array.isArray(v) ? v[0] : v` on a possibly absent
header value: the first element of an array (absent when empty), else
the string itself. -/
def headerFirst : Option HeaderValue → Option String
  | some (.single s) => some s
  | some (.multi (x :: _)) => some x
  | some (.multi []) => none
  | none => none

/-- The token-extraction branches of the auth middleware
(src/core/middleware.ts lines 438-450): a configured or default header
for apiKey, the Bearer-prefixed authorization header for bearer, and no
branch at all for custom, leaving the token unset. -/
def extractToken (options : AuthOptions) (req : GenericRequest) : Option String :=
  match options.type with
  | .apiKey =>
    let configured :=
      match options.headerName with
      | some h => if h = "" then "x-api-key" else h
      | none => "x-api-key"
    headerFirst (getHeader req configured.toLower)
  | .bearer =>
    match headerFirst (getHeader req "authorization") with
    | some s => if s.startsWith "Bearer " then some (s.drop 7) else none
    | none => none
  | .custom => none

/-- Outcome of one middleware invocation: a terminal rejection (status
code and body, the continuation never called), or proceeding to the
continuation. -/
inductive MWOutcome where
  | reject (status : Nat) (body : JValue)
  | proceed

/-- The missing-token rejection body (src/core/middleware.ts lines
453-457). -/
def authRequiredBody (options : AuthOptions) : JValue :=
  .vObj [("error", .vStr "Authentication required"),
         ("message", .vStr ("Missing " ++ options.type.asString ++ " token"))]

/-- Embedding of the middleware returned by `createAuthMiddleware`
(src/core/middleware.ts lines 436-479): extract a token per the
configured scheme; a falsy token (unset or empty) is rejected with 401
Authentication required; else the optional validate callback decides
between proceeding and a 401 Authentication failed rejection. -/
def createAuthMiddleware (options : AuthOptions) (req : GenericRequest) : MWOutcome :=
  match extractToken options req with
  | none => .reject 401 (authRequiredBody options)
  | some t =>
    if t = "" then .reject 401 (authRequiredBody options)
    else
      match options.validate with
      | some f =>
        if f t then .proceed
        else .reject 401 (.vObj [("error", .vStr "Authentication failed"),
                                 ("message", .vStr "Invalid token")])
      | none => .proceed

/-!
Helper lemmas shared by the claim theorems, and two concrete tool
descriptors (shaped after the demo server of the repository) used by
the witnesses.
-/

theorem translateProps_eq_map (props : List (String × SchemaNode)) :
    translateProps props = props.map (fun p => (p.1, zodToJsonSchema p.2)) := by
  induction props with
  | nil => rfl
  | cons p rest ih => cases p; simp [translateProps, ih]

theorem requiredNames_eq_filter (props : List (String × SchemaNode)) :
    requiredNames props =
      (props.filter (fun p => !isOptionalNode p.2)).map Prod.fst := by
  induction props with
  | nil => rfl
  | cons p rest ih =>
    cases p with
    | mk k s =>
      by_cases h : isOptionalNode s
      · simp [requiredNames, h, ih, List.filter_cons]
      · simp [requiredNames, h, ih, List.filter_cons]

theorem fieldLookup_objSet_self (m : List (String × JValue)) (k : String)
    (v : JValue) : fieldLookup k (objSet m k v) = v := by
  induction m with
  | nil => simp [objSet, fieldLookup]
  | cons p rest ih =>
    cases p with
    | mk k2 w =>
      by_cases h : k2 = k
      · simp [objSet, h, fieldLookup]
      · simp [objSet, h, fieldLookup, ih]

theorem fieldLookup_objSet_ne (m : List (String × JValue)) (k k2 : String)
    (v : JValue) (h : k2 ≠ k) :
    fieldLookup k (objSet m k2 v) = fieldLookup k m := by
  induction m with
  | nil => simp [objSet, fieldLookup, h]
  | cons p rest ih =>
    cases p with
    | mk k3 w =>
      by_cases h3 : k3 = k2
      · subst h3; simp [objSet, fieldLookup, h]
      · simp [objSet, h3, fieldLookup, ih]

theorem mem_mapSet (m : List (String × List Int)) (k : String) (v : List Int)
    (p : String × List Int) (h : p ∈ mapSet m k v) : p = (k, v) ∨ p ∈ m := by
  induction m with
  | nil => simpa [mapSet] using h
  | cons q rest ih =>
    cases q with
    | mk k2 w =>
      by_cases hk : k2 = k
      · subst hk
        simp [mapSet] at h
        rcases h with h | h
        · left; simpa using h
        · right; simp [h]
      · simp [mapSet, hk] at h
        rcases h with h | h
        · right; simp [h]
        · rcases ih h with h2 | h2
          · left; exact h2
          · right; simp [h2]

theorem mem_mapDelete (m : List (String × List Int)) (k : String)
    (p : String × List Int) (h : p ∈ mapDelete m k) : p ∈ m := by
  induction m with
  | nil => simp [mapDelete] at h
  | cons q rest ih =>
    cases q with
    | mk k2 w =>
      by_cases hk : k2 = k
      · simp [mapDelete, hk] at h
        simp [h]
      · simp [mapDelete, hk] at h
        rcases h with h | h
        · simp [h]
        · simp [ih h]

theorem mapGet_mem (m : List (String × List Int)) (k : String) (l : List Int)
    (h : mapGet m k = some l) : (k, l) ∈ m := by
  induction m with
  | nil => simp [mapGet] at h
  | cons q rest ih =>
    cases q with
    | mk k2 w =>
      by_cases hk : k2 = k
      · subst hk
        simp [mapGet] at h
        simp [h]
      · simp [mapGet, hk] at h
        simp [ih h]

/-- A demonstration tool named greet, shaped after the demo server. -/
def greetTool : ToolDef :=
  { name := "greet", description := some "Greet a user by name",
    inputSchema := .obj [("name", .str [])],
    outputSchema := .obj [("message", .str [])],
    handler := fun v => .ok v, preHandler := [], postHandler := [] }

/-- A demonstration tool named calculate whose handler raises the
division-by-zero fault of the demo server. -/
def calculateTool : ToolDef :=
  { name := "calculate", description := some "Perform basic math operations",
    inputSchema := .obj [("a", .num []), ("b", .num [])],
    outputSchema := .obj [("result", .num [])],
    handler := fun _ => .error (.jsError "Division by zero"),
    preHandler := [], postHandler := [] }

/-- C6: for every schema node and every value, validateWithSchema
returns a validation result (success with the validated value or
failure with the issue list) as an ordinary value and never throws:
the rethrow branch of its catch block is unreachable, because the zod
parse routine accumulates issues as a value and only ever throws them
wrapped in a ZodError, which the catch converts into the failure
result. -/
theorem validateWithSchema_never_throws (s : SchemaNode) (v : JValue) :
    ∃ r : VResult, validateWithSchema s v = Except.ok r := by
  cases h : parseCore s v with
  | ok w => exact ⟨.success w, by simp [validateWithSchema, zodParse, h]⟩
  | invalid issues => exact ⟨.failure issues, by simp [validateWithSchema, zodParse, h]⟩

/-- C5: registering a tool whose name is already taken fails with the
duplicate-tool error and leaves the registry unchanged (in particular,
exactly one entry under that name remains when there was one); a fresh
name is appended at the end, preserving registration order. -/
theorem registerTool_spec (tools : List ToolDef) (tool : ToolDef) :
    ((∃ u ∈ tools, u.name = tool.name) →
      (registerTool tools tool).1 =
        .error ("Tool with name \"" ++ tool.name ++ "\" already registered") ∧
      (registerTool tools tool).2 = tools ∧
      (tools.countP (fun t => t.name == tool.name) = 1 →
        ((registerTool tools tool).2.countP (fun t => t.name == tool.name)) = 1)) ∧
    ((∀ u ∈ tools, u.name ≠ tool.name) →
      (registerTool tools tool).1 = .ok () ∧
      (registerTool tools tool).2 = tools ++ [tool]) := by
  constructor
  · intro h
    have hfind : (tools.find? (fun t => t.name == tool.name)).isSome := by
      rcases h with ⟨u, hu, hname⟩
      simp [List.find?_isSome]
      exact ⟨u, hu, hname⟩
    refine ⟨?_, ?_, ?_⟩
    · simp [registerTool, hfind]
    · simp [registerTool, hfind]
    · intro hcount
      have h2 : (registerTool tools tool).2 = tools := by simp [registerTool, hfind]
      rw [h2]
      exact hcount
  · intro h
    have hfind : (tools.find? (fun t => t.name == tool.name)) = none := by
      simp [List.find?_eq_none]
      exact h
    constructor
    · simp [registerTool, hfind]
    · simp [registerTool, hfind]

/-- Witness for C5 at a concrete registry: registering a second tool
named greet fails with the duplicate error and the registry still holds
exactly the one greet entry; registering calculate (a fresh name)
appends it after greet. -/
theorem registerTool_spec_witness :
    (registerTool [greetTool] greetTool).1 =
      .error "Tool with name \"greet\" already registered" ∧
    (registerTool [greetTool] greetTool).2 = [greetTool] ∧
    ([greetTool].countP (fun t => t.name == "greet") = 1 →
      ((registerTool [greetTool] greetTool).2.countP
        (fun t => t.name == "greet")) = 1) ∧
    (registerTool [greetTool] calculateTool).1 = .ok () ∧
    (registerTool [greetTool] calculateTool).2 = [greetTool, calculateTool] := by
  have hdup := (registerTool_spec [greetTool] greetTool).1
    ⟨greetTool, by simp, rfl⟩
  have hfresh := (registerTool_spec [greetTool] calculateTool).2
    (by intro u hu; simp at hu; simp [hu, greetTool, calculateTool])
  exact ⟨hdup.1, hdup.2.1, hdup.2.2, hfresh.1, hfresh.2⟩

/-- C10: with the custom authentication scheme no token-extraction
branch applies, so the token stays unset and the middleware rejects
every request with 401 Authentication required without invoking the
continuation, whatever the headers and whatever validate callback is
configured. -/
theorem authMiddleware_custom_rejects (options : AuthOptions)
    (req : GenericRequest) (h : options.type = .custom) :
    createAuthMiddleware options req =
      .reject 401 (.vObj [("error", .vStr "Authentication required"),
                          ("message", .vStr "Missing custom token")]) := by
  simp [createAuthMiddleware, extractToken, authRequiredBody, h, AuthType.asString]

/-- Witness for C10: a request that does carry both an api key and a
bearer header, against options that do configure a validate callback
accepting everything, is still rejected when the scheme is custom. -/
theorem authMiddleware_custom_rejects_witness :
    createAuthMiddleware
        ⟨.custom, some "x-api-key", some (fun _ => true)⟩
        ⟨[("x-api-key", .single "k1"),
          ("authorization", .single "Bearer abc")]⟩ =
      .reject 401 (.vObj [("error", .vStr "Authentication required"),
                          ("message", .vStr "Missing custom token")]) :=
  authMiddleware_custom_rejects _ _ rfl

/-- The check operation exactly as claim C4 words it (comparison
definition following the claim text, not the source): first discard the
recorded timestamps strictly older than now minus the window length,
then accept (appending now) iff the remaining count is strictly below
max, else reject without mutating state. -/
def claimedCheck (rl : RateLimiter) (key : String) (now : Int) :
    Bool × RateLimiter :=
  let kept := ((mapGet rl.requests key).getD []).filter
    (fun time => now - rl.windowMs ≤ time)
  if kept.length < rl.max then
    (true, { rl with requests := mapSet rl.requests key (kept ++ [now]) })
  else (false, rl)

/-- Counterexample to C4 as stated: at the exact window boundary the
source discards a timestamp whose age equals the window (the filter
keeps only `now - time < windowMs`), while the claimed wording (discard
strictly older than now minus the window) retains it. With max 1,
window 1000 and one timestamp recorded at 0, a check at time 1000 is
accepted by the code but rejected under the claimed wording. -/
theorem rateLimiterCheck_counterexample :
    ((RateLimiter.check ⟨1, 1000, [("k", [0])]⟩ "k" 1000).1 = true) ∧
    ((claimedCheck ⟨1, 1000, [("k", [0])]⟩ "k" 1000).1 = false) := by
  constructor
  · rfl
  · rfl

/-- The check operation as amended: a stored timestamp is discarded
exactly when its age now - time has reached the window length (age
strictly below the window is kept); then accept (appending now) iff the
remaining count is strictly below max, else reject without mutating
state. -/
def amendedCheck (rl : RateLimiter) (key : String) (now : Int) :
    Bool × RateLimiter :=
  let kept := ((mapGet rl.requests key).getD []).filter
    (fun time => now - time < rl.windowMs)
  if kept.length < rl.max then
    (true, { rl with requests := mapSet rl.requests key (kept ++ [now]) })
  else (false, rl)

/-- C4 (amended): every check first discards the timestamps whose age
is at least the window length, accepts (storing the pruned list plus
now) iff the remaining count is strictly below max, and otherwise
rejects leaving the state untouched; and the concrete scenario holds:
with max 2 and window 1000 ms, checks of one key at times 0, 200 and
400 yield accept, accept, reject, and a fourth check at 1100 yields
accept. -/
theorem rateLimiterCheck_amended :
    (∀ (rl : RateLimiter) (key : String) (now : Int),
        rl.check key now = amendedCheck rl key now) ∧
    (((RateLimiter.init 2 1000).check "k" 0).1 = true ∧
     ((((RateLimiter.init 2 1000).check "k" 0).2).check "k" 200).1 = true ∧
     ((((((RateLimiter.init 2 1000).check "k" 0).2).check "k" 200).2).check "k" 400).1
        = false ∧
     ((((((((RateLimiter.init 2 1000).check "k" 0).2).check "k" 200).2).check
        "k" 400).2).check "k" 1100).1 = true) := by
  refine ⟨?_, by decide, by decide, by decide, by decide⟩
  intro rl key now
  unfold RateLimiter.check amendedCheck
  by_cases h : rl.max ≤ (((mapGet rl.requests key).getD []).filter
      (fun time => now - time < rl.windowMs)).length
  · simp [h, Nat.not_lt.mpr h]
  · simp [h, Nat.lt_of_not_le h]

/-- Invariant carried through the C9 induction: every entry stored in
the limiter map holds at most max timestamps. -/
def rlBounded (rl : RateLimiter) : Prop :=
  ∀ p ∈ rl.requests, p.2.length ≤ rl.max

theorem check_keeps_max (rl : RateLimiter) (key : String) (now : Int) :
    ((rl.check key now).2).max = rl.max := by
  by_cases hc : rl.max ≤ (((mapGet rl.requests key).getD []).filter
      (fun time => now - time < rl.windowMs)).length
  · simp [RateLimiter.check, hc]
  · simp [RateLimiter.check, hc]

theorem check_preserves_bounded (rl : RateLimiter) (key : String) (now : Int)
    (h : rlBounded rl) : rlBounded (rl.check key now).2 := by
  intro p hp
  rw [check_keeps_max]
  by_cases hc : rl.max ≤ (((mapGet rl.requests key).getD []).filter
      (fun time => now - time < rl.windowMs)).length
  · simp [RateLimiter.check, hc] at hp
    exact h p hp
  · simp [RateLimiter.check, hc] at hp
    rcases mem_mapSet _ _ _ _ hp with h1 | h1
    · rw [h1]
      simp
      omega
    · exact h p h1

theorem reset_preserves_bounded (rl : RateLimiter) (key : String)
    (h : rlBounded rl) : rlBounded (rl.reset key) := by
  intro p hp
  exact h p (mem_mapDelete _ _ _ hp)

theorem applyOp_preserves_bounded (rl : RateLimiter) (op : RLOp)
    (h : rlBounded rl) : rlBounded (rl.applyOp op) := by
  cases op with
  | doCheck k n => exact check_preserves_bounded rl k n h
  | doReset k => exact reset_preserves_bounded rl k h

theorem applyOp_keeps_max (rl : RateLimiter) (op : RLOp) :
    (rl.applyOp op).max = rl.max := by
  cases op with
  | doCheck k n => exact check_keeps_max rl k n
  | doReset k => rfl

theorem runOps_preserves_bounded (ops : List RLOp) (rl : RateLimiter)
    (h : rlBounded rl) : rlBounded (rl.runOps ops) := by
  induction ops generalizing rl with
  | nil => exact h
  | cons op rest ih => exact ih _ (applyOp_preserves_bounded rl op h)

theorem runOps_keeps_max (ops : List RLOp) (rl : RateLimiter) :
    (rl.runOps ops).max = rl.max := by
  induction ops generalizing rl with
  | nil => rfl
  | cons op rest ih => rw [show rl.runOps (op :: rest) = (rl.applyOp op).runOps rest from rfl,
      ih, applyOp_keeps_max]

/-- C9: after any sequence of check and reset operations starting from
a fresh limiter, the timestamp list stored under any key holds at most
max entries: entries are only written by an accepted check, which
persists the pruned list plus the new timestamp and is guarded by the
strictly-below-max test, and reset deletes the entry. -/
theorem rateLimiter_state_bounded (maxReq : Nat) (windowMs : Int)
    (ops : List RLOp) (key : String) (l : List Int)
    (h : mapGet ((RateLimiter.init maxReq windowMs).runOps ops).requests key
      = some l) :
    l.length ≤ maxReq := by
  have hb : rlBounded ((RateLimiter.init maxReq windowMs).runOps ops) :=
    runOps_preserves_bounded ops _ (by intro p hp; simp [RateLimiter.init] at hp)
  have hmax := runOps_keeps_max ops (RateLimiter.init maxReq windowMs)
  have := hb (key, l) (mapGet_mem _ _ _ h)
  simpa [hmax] using this

/-- Witness for C9: two accepted checks of one key leave a stored list
of two timestamps, within the bound max 2. -/
theorem rateLimiter_state_bounded_witness : ([0, 10] : List Int).length ≤ 2 :=
  rateLimiter_state_bounded 2 1000 [.doCheck "a" 0, .doCheck "a" 10] "a"
    [0, 10] (by decide)

/-- C7: translating an object node yields a document with type object,
each property translated recursively in the property order of the
input, and a required array listing exactly the property names not
wrapped in Optional (in that order), the required key being omitted
when that list is empty; and translating an Optional node yields
exactly the translation of its inner node. -/
theorem zodToJsonSchema_object_and_optional :
    (∀ props : List (String × SchemaNode),
      zodToJsonSchema (.obj props) =
        .vObj ([("type", .vStr "object"),
                ("properties",
                  .vObj (props.map (fun p => (p.1, zodToJsonSchema p.2))))] ++
          (if (props.filter (fun p => !isOptionalNode p.2)).map Prod.fst = [] then []
           else [("required",
             .vArr ((((props.filter (fun p => !isOptionalNode p.2)).map
               Prod.fst)).map JValue.vStr))]))) ∧
    (∀ inner : SchemaNode, zodToJsonSchema (.opt inner) = zodToJsonSchema inner) := by
  constructor
  · intro props
    simp only [zodToJsonSchema, translateProps_eq_map, requiredNames_eq_filter]
    by_cases h : (props.filter (fun p => !isOptionalNode p.2)).map Prod.fst = []
    · rw [if_pos h, h]
      simp
    · have hlen : 0 < ((props.filter (fun p => !isOptionalNode p.2)).map Prod.fst).length :=
        List.length_pos.mpr h
      rw [if_neg h, if_pos hlen]
  · intro inner
    simp [zodToJsonSchema]

/-- C8: the catalog request returns one entry per registered tool, in
registration order, each carrying the tool name, its description (the
declared one whenever it is a truthy string), and the translated input
schema with the type field forced to object. -/
theorem listTools_spec (tools : List ToolDef) :
    (listTools tools).length = tools.length ∧
    (∀ (i : Nat) (t : ToolDef), tools[i]? = some t →
      ∃ entry : ListedTool, (listTools tools)[i]? = some entry ∧
        entry.name = t.name ∧
        entry.inputSchema = forceObjectType (zodToJsonSchema t.inputSchema) ∧
        fieldLookup "type" (schemaFields entry.inputSchema) = .vStr "object" ∧
        (∀ d, t.description = some d → d ≠ "" → entry.description = d)) := by
  constructor
  · simp [listTools]
  · intro i t ht
    refine ⟨{ name := t.name, description := listedDescription t,
              inputSchema := forceObjectType (zodToJsonSchema t.inputSchema) },
      ?_, rfl, rfl, ?_, ?_⟩
    · simp [listTools, ht]
    · simp only [forceObjectType, schemaFields]
      rw [fieldLookup_objSet_ne _ _ _ _ (by decide : ("properties" : String) ≠ "type")]
      exact fieldLookup_objSet_self _ _ _
    · intro d hd hne
      simp [listedDescription, hd, hne]

/-- Witness for C8: after registering greet and then calculate, the
catalog lists two entries, greet first and calculate second. -/
theorem listTools_spec_witness :
    (listTools [greetTool, calculateTool]).length = 2 ∧
    (∃ e : ListedTool,
      (listTools [greetTool, calculateTool])[0]? = some e ∧ e.name = "greet") ∧
    (∃ e : ListedTool,
      (listTools [greetTool, calculateTool])[1]? = some e ∧ e.name = "calculate") := by
  have h := listTools_spec [greetTool, calculateTool]
  refine ⟨h.1, ?_, ?_⟩
  · obtain ⟨e, he, hn, _, _, _⟩ := h.2 0 greetTool rfl
    exact ⟨e, he, hn⟩
  · obtain ⟨e, he, hn, _, _, _⟩ := h.2 1 calculateTool rfl
    exact ⟨e, he, hn⟩

theorem exceptBind_ok {A E B : Type} (a : A) (f : A → Except E B) :
    (Except.ok a : Except E A) >>= f = f a := rfl

theorem exceptBind_error {A E B : Type} (e : E) (f : A → Except E B) :
    (Except.error e : Except E A) >>= f = Except.error e := rfl

/-- C3: when the arguments of a call to a registered tool fail
validation against its input schema, the pipeline returns the
input-validation error envelope — isError true, error text Input
validation failed, and the issue list rendered by formatZodError — and
the handler and hooks are never invoked: the response is identical
whatever handler and hooks the tool carries. -/
theorem callTool_input_validation_failure (t : ToolDef) (args : JValue)
    (issues : List ZodIssue)
    (h : validateWithSchema t.inputSchema args = .ok (.failure issues)) :
    callTool [t] t.name args = inputValidationFailedResponse issues ∧
    (callTool [t] t.name args).isError = true ∧
    fieldLookup "error" (schemaFields (callTool [t] t.name args).payload) =
      .vStr "Input validation failed" ∧
    fieldLookup "details" (schemaFields (callTool [t] t.name args).payload) =
      .vStr (formatZodError issues) ∧
    (∀ (hnd : JValue → Except JSException JValue) pre post,
      callTool [{ t with handler := hnd, preHandler := pre, postHandler := post }]
        t.name args = inputValidationFailedResponse issues) := by
  have hcall : callTool [t] t.name args = inputValidationFailedResponse issues := by
    simp [callTool, tryBody, h, exceptBind_ok]
    rfl
  refine ⟨hcall, by rw [hcall]; rfl, by rw [hcall]; rfl, by rw [hcall]; rfl, ?_⟩
  intro hnd pre post
  simp [callTool, tryBody, h, exceptBind_ok]
  rfl

/-- Witness for C3: calling calculate with a string where a number is
required yields the input-validation envelope carrying the issue for
the offending path, for this handler as for any other. -/
theorem callTool_input_validation_failure_witness :
    callTool [calculateTool] "calculate"
        (.vObj [("a", .vStr "x"), ("b", .vNum 2)]) =
      inputValidationFailedResponse [⟨["a"], "Expected number, received string"⟩] :=
  (callTool_input_validation_failure calculateTool
    (.vObj [("a", .vStr "x"), ("b", .vNum 2)])
    [⟨["a"], "Expected number, received string"⟩] rfl).1

/-- C1: whenever the try block of the call-tool pipeline surfaces an
exception — which is exactly what happens when a pre-hook, the handler
or a post-hook raises during the invocation — the request handler
returns a normal response value with isError true whose body carries
the fault message; the total return type of callTool embeds that no
exception crosses the protocol boundary. -/
theorem callTool_fault_is_enveloped (tools : List ToolDef) (name : String)
    (tool : ToolDef) (args : JValue) (e : JSException)
    (hfind : tools.find? (fun t => t.name == name) = some tool)
    (herr : tryBody tool args = .error e) :
    callTool tools name args = executionFailedResponse e ∧
    (callTool tools name args).isError = true ∧
    fieldLookup "message" (schemaFields (callTool tools name args).payload) =
      .vStr (excMessage e) := by
  have hcall : callTool tools name args = executionFailedResponse e := by
    simp [callTool, hfind, herr]
  exact ⟨hcall, by rw [hcall]; rfl, by rw [hcall]; rfl⟩

/-- Witness for C1: the calculate handler raising Division by zero on
validated input yields the execution-failed envelope carrying exactly
that message. -/
theorem callTool_fault_is_enveloped_witness :
    callTool [calculateTool] "calculate"
        (.vObj [("a", .vNum 10), ("b", .vNum 0)]) =
      executionFailedResponse (.jsError "Division by zero") ∧
    fieldLookup "message" (schemaFields ((callTool [calculateTool] "calculate"
        (.vObj [("a", .vNum 10), ("b", .vNum 0)])).payload)) =
      .vStr "Division by zero" := by
  have h := callTool_fault_is_enveloped [calculateTool] "calculate" calculateTool
    (.vObj [("a", .vNum 10), ("b", .vNum 0)]) (.jsError "Division by zero") rfl rfl
  exact ⟨h.1, h.2.2⟩

/-- A tool whose single pre-hook returns the replacement input 0 (a
falsy value) and whose handler echoes its input unchanged. -/
def zeroHookTool : ToolDef :=
  { name := "echo", description := none,
    inputSchema := .num [], outputSchema := .num [],
    handler := fun v => .ok v,
    preHandler := [fun _ => .ok (some (.vNum 0))],
    postHandler := [] }

/-- Counterexample to C2 as stated: on the call of zeroHookTool with
argument 5, its pre-hook returns the replacement input value 0; were
that replacement observed by the handler, the echoed payload would be
0, but the truthiness test of the pre-handler loop silently ignores the
falsy replacement and the handler observes 5. -/
theorem preHook_replacement_counterexample :
    callTool [zeroHookTool] "echo" (.vNum 5) = successResponse (.vNum 5) ∧
    successResponse (.vNum 5) ≠ successResponse (.vNum 0) := by
  constructor
  · rfl
  · intro hEq
    have h2 := congrArg CallResponse.payload hEq
    simp [successResponse] at h2

/-- C2 (amended): pre-hooks run strictly in registration order, each
observing the current input; a returned replacement is adopted exactly
when the returned result and its input value are truthy under
JavaScript truthiness (a hook returning nothing, or a falsy
replacement, leaves the input unchanged); an adopted replacement is the
input every subsequent hook runs on, and the handler is invoked on the
final pre-hook output. -/
theorem preHooks_ordered_truthy_replacement :
    (∀ (hooks1 : List (JValue → Except JSException (Option JValue)))
       (hook : JValue → Except JSException (Option JValue))
       (hooks2 : List (JValue → Except JSException (Option JValue)))
       (v w : JValue) (r : Option JValue),
        runPre hooks1 v = .ok w → hook w = .ok r →
        runPre (hooks1 ++ hook :: hooks2) v = runPre hooks2 (applyPre w r)) ∧
    (∀ (v u : JValue), truthy u = true → applyPre v (some u) = u) ∧
    (∀ (v u : JValue), truthy u = false → applyPre v (some u) = v) ∧
    (∀ v : JValue, applyPre v none = v) ∧
    (∀ (t : ToolDef) (args v0 w : JValue),
        validateWithSchema t.inputSchema args = .ok (.success v0) →
        runPre t.preHandler v0 = .ok w →
        tryBody t args = t.handler w >>= fun output0 => afterHandler t w output0) := by
  refine ⟨?_, ?_, ?_, ?_, ?_⟩
  · intro hooks1
    induction hooks1 with
    | nil =>
      intro hook hooks2 v w r h1 h2
      simp [runPre] at h1
      subst h1
      simp [runPre, h2, exceptBind_ok]
    | cons hh rest ih =>
      intro hook hooks2 v w r h1 h2
      cases hhv : hh v with
      | error e =>
        simp only [runPre, hhv, exceptBind_error] at h1
        exact Except.noConfusion h1
      | ok rr =>
        simp only [runPre, hhv, exceptBind_ok] at h1
        simp only [List.cons_append, runPre, hhv, exceptBind_ok]
        exact ih hook hooks2 (applyPre v rr) w r h1 h2
  · intro v u hu
    simp [applyPre, hu]
  · intro v u hu
    simp [applyPre, hu]
  · intro v
    rfl
  · intro t args v0 w h1 h2
    simp [tryBody, h1, h2, exceptBind_ok]

/-- Witness for C2 (amended): a first hook replacing the input by the
truthy value 7 makes the remainder of the pre-handler loop run on 7. -/
theorem preHooks_ordered_truthy_replacement_witness :
    runPre [fun _ => Except.ok (some (JValue.vNum 7))] (.vNum 5) = .ok (.vNum 7) := by
  have h := preHooks_ordered_truthy_replacement.1 []
    (fun _ => Except.ok (some (JValue.vNum 7))) [] (.vNum 5) (.vNum 5)
    (some (.vNum 7)) rfl rfl
  simpa [runPre, applyPre, truthy] using h
